import Mathlib

/-!
Verification of the Chat_Arena server against its specification.

The Python sources under `server/` are shallowly embedded: strings are
`String` or `List Char`, `datetime` instants are abstract `Nat` ticks,
dictionaries are functions into `Option`, and the `asyncio` handlers are
modelled as pure state transformers on the data they touch.  Each embedded
definition carries the name of the Python function it translates.

A recurring point about the embedding of `main.py`: `WebSocketManager.update_session`
and `WebSocketManager.update_activity` are `async def` methods, but every call
site in `main.py` invokes them *without* `await`.  In Python such a call only
builds a coroutine object and discards it; the method body never runs.  The
embedding therefore models those call sites as having no effect on the session
table, which is what the running program does.
-/

set_option linter.unusedVariables false

namespace ChatArena

/-! ### Python string primitives (on `List Char`) -/

/-- Whitespace as recognised by Python's `str.strip()` and the regex class `\s`
(the ASCII subset, which is all the server ever feeds it). -/
def isPySpace (c : Char) : Bool :=
  c = ' ' || c = '\t' || c = '\n' || c = '\r' || c = '\x0b' || c = '\x0c'

/-- Leading-whitespace removal, the first half of Python's `str.strip()`. -/
def dropLeadingSpace (l : List Char) : List Char := l.dropWhile isPySpace

/-- Trailing-whitespace removal, the second half of Python's `str.strip()`. -/
def dropTrailingSpace : List Char → List Char
  | [] => []
  | c :: t =>
    match dropTrailingSpace t with
    | [] => if isPySpace c then [] else [c]
    | r => c :: r

/-- Python `str.strip()`. -/
def pyStrip (l : List Char) : List Char := dropTrailingSpace (dropLeadingSpace l)

/-- Python `str.strip()` on `String`. -/
def pyStripStr (s : String) : String := String.mk (pyStrip s.data)

/-! ### `server/llm/memory.py`: `ConversationMemory` -/

/-- `MemoryEntry` (timestamps are abstract ticks). -/
structure MemoryEntry where
  role : String
  content : String
  think : String := ""
  speech : String := ""
  timestamp : Nat := 0
  sentiment : String := "neutral"
deriving DecidableEq

/-- The mutable state of `ConversationMemory` that the entry operations touch
(`max_entries` and `_entries`; the context strings are irrelevant here). -/
structure ConversationMemory where
  max_entries : Nat := 50
  entries : List MemoryEntry := []
deriving DecidableEq

/-- Python list slice `l[-n:]`.  For `n = 0` the slice is `l[0:]`, i.e. the
whole list; for `n ≥ 1` it is the last `n` elements (the whole list when
`n ≥ len(l)`). -/
def pySliceLast (n : Nat) (l : List α) : List α :=
  if n = 0 then l else l.drop (l.length - n)

/-- `ConversationMemory._add_entry`: append, then slice to `[-max_entries:]`
when the length exceeds `max_entries`. -/
def addEntry (m : ConversationMemory) (e : MemoryEntry) : ConversationMemory :=
  let es := m.entries ++ [e]
  if m.max_entries < es.length then
    { m with entries := pySliceLast m.max_entries es }
  else
    { m with entries := es }

/-- `ConversationMemory.add_partner_message`. -/
def addPartnerMessage (m : ConversationMemory) (content sentiment : String)
    (now : Nat) : ConversationMemory :=
  addEntry m { role := "user", content := content, speech := content,
               sentiment := sentiment, timestamp := now }

/-- `ConversationMemory.add_ai_message`. -/
def addAiMessage (m : ConversationMemory) (think speech : String)
    (now : Nat) : ConversationMemory :=
  addEntry m { role := "assistant",
               content := "<think>" ++ think ++ "</think><speech>" ++ speech ++ "</speech>",
               think := think, speech := speech, timestamp := now }

/-- One call to either of the two public entry-adding methods. -/
inductive MemCall where
  | partner (content sentiment : String) (now : Nat)
  | ai (think speech : String) (now : Nat)
deriving DecidableEq

/-- The `MemoryEntry` a call appends. -/
def entryOf : MemCall → MemoryEntry
  | .partner content sentiment now =>
      { role := "user", content := content, speech := content,
        sentiment := sentiment, timestamp := now }
  | .ai think speech now =>
      { role := "assistant",
        content := "<think>" ++ think ++ "</think><speech>" ++ speech ++ "</speech>",
        think := think, speech := speech, timestamp := now }

/-- Run a call against the memory. -/
def applyMemCall (m : ConversationMemory) : MemCall → ConversationMemory
  | .partner content sentiment now => addPartnerMessage m content sentiment now
  | .ai think speech now => addAiMessage m think speech now

/-- Run a sequence of calls against the memory. -/
def runMemCalls (m : ConversationMemory) (cs : List MemCall) : ConversationMemory :=
  cs.foldl applyMemCall m

/-! ### `server/llm/base.py`: `LLMResponse` tag parsing

`_parse_content` runs `re.search(r"<think>(.*?)</think>", content, re.DOTALL)`
(and the same for `speech`).  For this pattern a match exists exactly when the
first occurrence of the opening tag is followed somewhere by the closing tag,
and the lazy group is the text between that first opening tag and the first
closing tag after it.  `dropToAfter` and `takeToFirst` implement that search
directly. -/

/-- `a` is a prefix of `b` (Boolean, like Python's `str.startswith`). -/
def isPre : List Char → List Char → Bool
  | [], _ => true
  | _ :: _, [] => false
  | a :: as, b :: bs => a == b && isPre as bs

/-- The remainder of `hay` after the first occurrence of `needle`
(`none` when `needle` does not occur). -/
def dropToAfter (needle : List Char) : List Char → Option (List Char)
  | [] => if isPre needle [] then some [] else none
  | c :: t =>
    if isPre needle (c :: t) then some ((c :: t).drop needle.length)
    else dropToAfter needle t

/-- The part of `hay` before the first occurrence of `needle`
(`none` when `needle` does not occur). -/
def takeToFirst (needle : List Char) : List Char → Option (List Char)
  | [] => if isPre needle [] then some [] else none
  | c :: t =>
    if isPre needle (c :: t) then some []
    else (takeToFirst needle t).map (c :: ·)

/-- Group 1 of `re.search(openT + "(.*?)" + closeT, hay, re.DOTALL)`. -/
def reSearchGroup (openT closeT hay : List Char) : Option (List Char) :=
  match dropToAfter openT hay with
  | none => none
  | some rest => takeToFirst closeT rest

def thinkOpen : List Char := ['<', 't', 'h', 'i', 'n', 'k', '>']

def thinkClose : List Char := ['<', '/', 't', 'h', 'i', 'n', 'k', '>']

def speechOpen : List Char := ['<', 's', 'p', 'e', 'e', 'c', 'h', '>']

def speechClose : List Char := ['<', '/', 's', 'p', 'e', 'e', 'c', 'h', '>']

/-- The fields of `LLMResponse` involved in tag parsing. -/
structure LLMResp where
  content : List Char
  think : List Char
  speech : List Char
deriving DecidableEq

/-- Constructing an `LLMResponse(content, think, speech)`: `__post_init__` runs
`_parse_content` when `content` is non-empty and `think` and `speech` are both
empty.  `_parse_content` sets `think`/`speech` from the stripped lazy groups of
the tag searches and, when both are still empty afterwards, treats the whole
stripped content as speech. -/
def mkLLMResponse (content think speech : List Char) : LLMResp :=
  if content ≠ [] ∧ think = [] ∧ speech = [] then
    let t := match reSearchGroup thinkOpen thinkClose content with
             | some g => pyStrip g
             | none => think
    let s := match reSearchGroup speechOpen speechClose content with
             | some g => pyStrip g
             | none => speech
    if t = [] ∧ s = [] then ⟨content, t, pyStrip content⟩ else ⟨content, t, s⟩
  else ⟨content, think, speech⟩

/-! ### `server/llm/ai_participant.py`: `sanitize_speech`

`re.sub` scans the subject left to right, replacing non-overlapping matches;
matching never restarts inside replaced text.  `reSubGoF` implements that scan
for patterns whose matches are deletions.  Each matcher receives the head
character and the tail and returns how many tail characters the match consumes
(the full match is that count plus the head).  The `Nat` fuel argument only
makes the recursion structural; one unit is spent per scanned position, so the
initial fuel `l.length` is never exhausted. -/

/-- The `re.sub(pattern, '', text)` scan. -/
def reSubGoF (m : Char → List Char → Option Nat) : Nat → List Char → List Char
  | _, [] => []
  | 0, l => l
  | fuel + 1, c :: t =>
    match m c t with
    | some n => reSubGoF m fuel (t.drop n)
    | none => c :: reSubGoF m fuel t

/-- `re.sub(pattern, '', text)` for a deletion pattern given by matcher `m`. -/
def reSub (m : Char → List Char → Option Nat) (l : List Char) : List Char :=
  reSubGoF m l.length l

/-- Matcher for `r'<[^>]+>'`: `<`, at least one non-`>` character, then `>`. -/
def tagMatch (c : Char) (t : List Char) : Option Nat :=
  if c = '<' then
    let pre := t.takeWhile (fun d => d ≠ '>')
    if 1 ≤ pre.length ∧ pre.length < t.length then some (pre.length + 1) else none
  else none

/-- Matcher for `r'\[[^\]]*\]'`. -/
def brMatch (c : Char) (t : List Char) : Option Nat :=
  if c = '[' then
    let pre := t.takeWhile (fun d => d ≠ ']')
    if pre.length < t.length then some (pre.length + 1) else none
  else none

def isUpperAZ (c : Char) : Bool := 'A' ≤ c && c ≤ 'Z'

def isLowerAZ (c : Char) : Bool := 'a' ≤ c && c ≤ 'z'

/-- The regex class `\w` (ASCII letters, digits and underscore, which is all
the server's text contains). -/
def isWordChar (c : Char) : Bool := c.isAlphanum || c = '_'

/-- The greedy loop `(?:\s+\w+)*`: total characters consumed and the rest.
Each iteration needs a non-empty whitespace run followed by a non-empty word
run.  Fuel as in `reSubGoF`; every iteration consumes at least two characters,
so initial fuel `l.length` cannot run out. -/
def wsWordGroupsF : Nat → List Char → Nat × List Char
  | 0, l => (0, l)
  | fuel + 1, l =>
    let w := (l.takeWhile isPySpace).length
    if w = 0 then (0, l)
    else
      let r := l.drop w
      let d := (r.takeWhile isWordChar).length
      if d = 0 then (0, l)
      else
        let (k, rest) := wsWordGroupsF fuel (r.drop d)
        (w + d + k, rest)

/-- Matcher for `r'\(\s*(?:[A-Z][a-z]*(?:ing|s|ed)?(?:\s+\w+)*)\s*\)'`.
After the greedy `[a-z]*` the next character is not a lowercase letter, so the
optional `(?:ing|s|ed)?` group can only match the empty string and is elided. -/
def stageMatch (c : Char) (t : List Char) : Option Nat :=
  if c = '(' then
    let w1 := (t.takeWhile isPySpace).length
    match t.drop w1 with
    | [] => none
    | a :: r2 =>
      if isUpperAZ a then
        let low := (r2.takeWhile isLowerAZ).length
        let r3 := r2.drop low
        let (k, r4) := wsWordGroupsF r3.length r3
        let w2 := (r4.takeWhile isPySpace).length
        match r4.drop w2 with
        | ')' :: _ => some (w1 + 1 + low + k + w2 + 1)
        | _ => none
      else none
  else none

/-- ASCII-lowercase prefix test (the pattern is given lowercase); implements a
literal under `re.IGNORECASE`. -/
def isPreCI : List Char → List Char → Bool
  | [], _ => true
  | _ :: _, [] => false
  | a :: as, b :: bs => a == b.toLower && isPreCI as bs

/-- Candidate consumed lengths for a verb alternative `stem` + optional `s?`,
in backtracking priority order (greedy: with the `s` first). -/
def stemCandidates (stem : List Char) (optS : Bool) (rest : List Char) : List Nat :=
  if isPreCI stem rest then
    if optS && isPreCI (stem ++ ['s']) rest then [stem.length + 1, stem.length]
    else [stem.length]
  else []

/-- `\s+\w+` after `n` consumed characters (for `leans?\s+\w+`). -/
def wsWordAfter (n : Nat) (rest : List Char) : List Nat :=
  let r := rest.drop n
  let w := (r.takeWhile isPySpace).length
  if w = 0 then []
  else
    let d := ((r.drop w).takeWhile isWordChar).length
    if d = 0 then [] else [n + w + d]

/-- `\s+<lit>` after `n` consumed characters. -/
def litAfter (lit : List Char) (n : Nat) (rest : List Char) : List Nat :=
  let r := rest.drop n
  let w := (r.takeWhile isPySpace).length
  if w = 0 then []
  else if isPreCI lit (r.drop w) then [n + w + lit.length] else []

/-- `\s+<lit>s?` after `n` consumed characters (for `rolls?\s+eyes?`). -/
def litSAfter (lit : List Char) (n : Nat) (rest : List Char) : List Nat :=
  let r := rest.drop n
  let w := (r.takeWhile isPySpace).length
  if w = 0 then []
  else
    let r2 := r.drop w
    if isPreCI lit r2 then
      if isPreCI (lit ++ ['s']) r2 then [n + w + lit.length + 1, n + w + lit.length]
      else [n + w + lit.length]
    else []

/-- The simple verb alternatives of the `action_verbs` pattern, in source
order; `true` marks a trailing `s?`. -/
def actionStems : List (List Char × Bool) :=
  [("sigh".data, true), ("laugh".data, true), ("laughing".data, false),
   ("chuckle".data, true), ("chuckling".data, false),
   ("smile".data, true), ("smiling".data, false),
   ("grin".data, true), ("grinning".data, false),
   ("nod".data, true), ("nodding".data, false),
   ("shrug".data, true), ("shrugging".data, false),
   ("pause".data, true), ("pausing".data, false),
   ("think".data, true), ("thinking".data, false),
   ("frown".data, true), ("frowning".data, false),
   ("wink".data, true), ("winking".data, false),
   ("gesture".data, true), ("gesturing".data, false)]

/-- All candidate verb-part lengths at `rest`, in alternation order (the four
compound alternatives come last, as in the source pattern). -/
def actionAlternatives (rest : List Char) : List Nat :=
  (actionStems.flatMap (fun p => stemCandidates p.1 p.2 rest))
    ++ (stemCandidates "lean".data true rest).flatMap (fun n => wsWordAfter n rest)
    ++ (stemCandidates "clear".data true rest).flatMap (fun n => litAfter "throat".data n rest)
    ++ (stemCandidates "roll".data true rest).flatMap (fun n => litSAfter "eye".data n rest)
    ++ (stemCandidates "raise".data true rest).flatMap (fun n => litAfter "eyebrow".data n rest)

/-- The pattern tail `(?:\s+\w+)*\s*\)` after a verb candidate of length `n`:
total consumed characters on success.  Shorter loop iterations can never
rescue a failing `\s*\)`, so the greedy parse is the regex result. -/
def actionTail (rest : List Char) (n : Nat) : Option Nat :=
  let r := rest.drop n
  let (k, r2) := wsWordGroupsF r.length r
  let w2 := (r2.takeWhile isPySpace).length
  match r2.drop w2 with
  | ')' :: _ => some (n + k + w2 + 1)
  | _ => none

/-- Matcher for the `action_verbs` pattern (`re.IGNORECASE`):
`\(\s*(?:sighs?|…|raises?\s+eyebrow)(?:\s+\w+)*\s*\)`. -/
def actionMatch (c : Char) (t : List Char) : Option Nat :=
  if c = '(' then
    let w1 := (t.takeWhile isPySpace).length
    let rest := t.drop w1
    match ((actionAlternatives rest).filterMap (actionTail rest)).head? with
    | some m => some (w1 + m)
    | none => none
  else none

/-- `re.sub(r'\s+', ' ', text)`: each maximal whitespace run becomes one
space.  Fuel as in `reSubGoF`. -/
def collapseWsF : Nat → List Char → List Char
  | _, [] => []
  | 0, l => l
  | fuel + 1, c :: t =>
    if isPySpace c then ' ' :: collapseWsF fuel (t.dropWhile isPySpace)
    else c :: collapseWsF fuel t

def collapseWs (l : List Char) : List Char := collapseWsF l.length l

/-- Every whitespace character is a plain blank (used to describe the output
of `collapseWs`). -/
def blanksOnly (l : List Char) : Bool := l.all (fun c => !isPySpace c || c == ' ')

/-- No two adjacent whitespace characters (used to describe the output of
`collapseWs`). -/
def noAdjSpace : List Char → Bool
  | c :: d :: t => (!(isPySpace c && isPySpace d)) && noAdjSpace (d :: t)
  | _ => true

/-- `sanitize_speech` from `server/llm/ai_participant.py`. -/
def sanitize (l : List Char) : List Char :=
  if l = [] then l
  else
    let t1 := reSub tagMatch l
    let t2 := reSub brMatch t1
    let t3 := reSub stageMatch t2
    let t4 := reSub actionMatch t3
    pyStrip (collapseWs t4)

/-! ### `server/models.py` and `server/websocket_manager.py`: sessions -/

/-- `UserSession` (timestamps are abstract `Nat` ticks). -/
structure UserSession where
  user_id : String
  consented : Bool := false
  paired : Bool := false
  partner_id : Option String := none
  session_id : Option String := none
  task : Option String := none
  is_ai_partner : Bool := false
  last_activity : Option Nat := none
deriving DecidableEq

/-- The `WebSocketManager.sessions` dictionary. -/
abbrev SessionTable := String → Option UserSession

/-- Dictionary write at one key. -/
def setSession (st : SessionTable) (k : String) (v : UserSession) : SessionTable :=
  fun x => if x = k then some v else st x

/-- The six assignments one side of `pair_users_atomic` performs on a session
object (with the partner id, session id, task and `datetime.now()` value). -/
def pairFields (s : UserSession) (pid sid tk : String) (now : Nat) : UserSession :=
  { s with paired := true, partner_id := some pid, session_id := some sid,
           task := some tk, is_ai_partner := false, last_activity := some now }

/-- `WebSocketManager.pair_users_atomic`.  The Python method fetches both
session objects, checks them, then mutates first the user's and then the
partner's object.  Mutating an object is a table write at its key; when
`partner_id = user_id` both names alias one object, so the second block sees
(and fully overwrites) the first block's fields — hence the re-read of the
table at `pid` between the two writes. -/
def pairUsersAtomic (st : SessionTable) (user_id partner_id session_id : String)
    (user_task partner_task : String) (nowU nowP : Nat) : Bool × SessionTable :=
  match st user_id, st partner_id with
  | some user_session, some partner_session =>
    if user_session.paired || partner_session.paired then (false, st)
    else
      let st1 := setSession st user_id (pairFields user_session partner_id session_id user_task nowU)
      let ps1 := match st1 partner_id with
                 | some s => s
                 | none => partner_session
      (true, setSession st1 partner_id (pairFields ps1 user_id session_id partner_task nowP))
  | _, _ => (false, st)

/-- The field resets of `WebSocketManager.clear_pairing_atomic`. -/
def clearPairingFields (s : UserSession) : UserSession :=
  { s with paired := false, partner_id := none, session_id := none,
           task := none, is_ai_partner := false }

/-- `WebSocketManager.clear_pairing_atomic`: returns the old partner id and
the updated table. -/
def clearPairingAtomic (st : SessionTable) (u : String) : Option String × SessionTable :=
  match st u with
  | none => (none, st)
  | some s => (s.partner_id, setSession st u (clearPairingFields s))

/-! ### `server/pairing_service.py`: the wait queue

The `_delayed_users` cooldown map is read through `is_delayed`, whose value at
one instant is a predicate on user ids; the deletion of expired entries it
performs does not change that value, so a single handler invocation sees the
fixed predicate `delayed`. -/

/-- `PairingService.add_to_queue`, queue part: append unless present. -/
def addToQueue (q : List String) (u : String) : List String :=
  if u ∈ q then q else q ++ [u]

/-- `PairingService.add_to_queue` including its returned 1-indexed position
(`list(queue).index(user_id) + 1` after the append). -/
def addToQueuePos (q : List String) (u : String) : Nat × List String :=
  let q' := addToQueue q u
  (q'.indexOf u + 1, q')

/-- `PairingService.remove_from_queue`: drop the first occurrence, if any. -/
def removeFromQueue (q : List String) (u : String) : List String :=
  if u ∈ q then q.erase u else q

/-- The partner-search loop of `try_pair`: pop entries until a non-delayed one
is found, then push the skipped entries back on the front in their original
order.  Returns the partner (if any) and the queue that remains. -/
def tryPairLoop (delayed : String → Bool) : List String → Option String × List String
  | [] => (none, [])
  | c :: rest =>
    if delayed c then
      let (p, q') := tryPairLoop delayed rest
      (p, c :: q')
    else (some c, rest)

/-- `PairingService.try_pair`: result and the queue afterwards. -/
def tryPair (delayed : String → Bool) (u : String) (q : List String) :
    Option String × List String :=
  if delayed u then (none, q)
  else if q.length < 2 then (none, q)
  else
    let q1 := removeFromQueue q u
    match tryPairLoop delayed q1 with
    | (some p, q2) => (some p, q2)
    | (none, q2) => (none, addToQueue q2 u)

/-! ### `server/main.py`: frames, storage and the websocket handlers -/

/-- Server-to-client frames (the fields the handlers fill in). -/
inductive Frame where
  | frameError (message : String)
  | waiting (position : Nat)
  | pairedFrame (topic task session_id : String)
  | messageSent (timestamp : String)
  | partnerMessage (content timestamp : String)
deriving DecidableEq

/-- `ConversationMessage` from `server/models.py`. -/
structure ConvMessage where
  role : String
  content : String
  timestamp : String
deriving DecidableEq

/-- `Conversation` from `server/models.py` (participants as
`(user_id, task)` pairs). -/
structure Conversation where
  session_id : String
  topic : String
  participants : List (String × String)
  messages : List ConvMessage
  started_at : String
  ended_at : Option String := none
deriving DecidableEq

/-- The `StorageService._conversations` cache (the on-disk fallback holds the
same conversations; a session id absent here is absent there too). -/
abbrev Storage := String → Option Conversation

/-- `StorageService.add_message`: look the conversation up by the session id
(the session's `session_id` field, possibly `None`) and append; a missing
conversation only logs a warning. -/
def addMessage (stg : Storage) (sid : Option String) (role content timestamp : String) :
    Storage :=
  match sid with
  | none => stg
  | some s =>
    match stg s with
    | none => stg
    | some conv =>
      fun x => if x = s then
                 some { conv with messages := conv.messages ++ [⟨role, content, timestamp⟩] }
               else stg x

/-- `MIN_THINK_CHARS` from `server/config.py`. -/
def minThinkChars : Nat := 10

/-- `WebSocketManager.send_to_partner`: the recipient the frame is delivered
to, if verification succeeds and a connection exists.  `aiPartnerOf` gives
`partner_id` of the active AI session at an ai id (`get_ai_session`), and
`conns` says which ids have a websocket in `connections`. -/
def sendToPartner (st : SessionTable) (aiPartnerOf : String → Option String)
    (conns : String → Bool) (u : String) : Option String :=
  match st u with
  | none => none
  | some s =>
    match s.partner_id with
    | none => none
    | some pid =>
      let humanOk : Bool := match st pid with
                            | some ps => ps.partner_id == some u
                            | none => false
      let ok : Bool := if humanOk then true
                       else match aiPartnerOf pid with
                            | some partner => partner == u
                            | none => false
      if ok && conns pid then some pid else none

/-- What one invocation of `handle_chat_message` produces: the frames sent (in
order, with their recipients), the session table and storage afterwards, and
the message forwarded to the AI manager, if any. -/
structure ChatMsgResult where
  frames : List (String × Frame)
  sessions : SessionTable
  storage : Storage
  aiForward : Option (String × String)

/-- `handle_chat_message` from `server/main.py`.  The unawaited
`manager.update_activity(user_id)` call is a no-op (see the file comment). -/
def handleChatMessage (st : SessionTable) (conns : String → Bool)
    (aiPartnerOf : String → Option String) (aiManagerPresent : Bool)
    (stg : Storage) (u : String) (think speech : String) (timestamp : String) :
    ChatMsgResult :=
  match st u with
  | none => ⟨[(u, .frameError "You are not in an active chat session")], st, stg, none⟩
  | some s =>
    if s.paired = false then
      ⟨[(u, .frameError "You are not in an active chat session")], st, stg, none⟩
    else
      match s.partner_id with
      | none => ⟨[(u, .frameError "Partner connection lost")], st, stg, none⟩
      | some pid =>
        let mutualFail : Bool :=
          if s.is_ai_partner then false
          else match st pid with
               | none => true
               | some ps => ps.partner_id != some u
        if mutualFail then
          ⟨[(u, .frameError "Partner connection lost")], (clearPairingAtomic st u).2, stg, none⟩
        else if think.length < minThinkChars then
          ⟨[(u, .frameError ("Think field must be at least " ++ toString minThinkChars
              ++ " characters"))], st, stg, none⟩
        else if pyStripStr speech = "" then
          ⟨[(u, .frameError "Speech field cannot be empty")], st, stg, none⟩
        else
          let content := "<think>" ++ think ++ "</think>" ++ speech
          let stg1 := addMessage stg s.session_id u content timestamp
          if s.is_ai_partner ∧ aiManagerPresent then
            ⟨[(u, .messageSent timestamp)], st, stg1, some (pid, speech)⟩
          else
            match sendToPartner st aiPartnerOf conns u with
            | some rcpt =>
              ⟨[(u, .messageSent timestamp), (rcpt, .partnerMessage speech timestamp)],
               st, stg1, none⟩
            | none => ⟨[(u, .messageSent timestamp)], st, stg1, none⟩

/-- What `handle_join` produces up to its final `try_pairing` call: frames
sent so far, session table, queue. -/
structure JoinResult where
  frames : List (String × Frame)
  sessions : SessionTable
  queue : List String

/-- `handle_join` from `server/main.py`, lines 363-385, up to (not including)
the trailing `try_pairing` invocation.  The calls
`manager.update_session(user_id, consented=True)` and
`manager.update_activity(user_id)` are unawaited coroutines and never run, so
the session table passes through unchanged (see the file comment). -/
def handleJoinBeforePairing (st : SessionTable) (q : List String) (u : String)
    (consent : Bool) : JoinResult :=
  if consent = false then
    ⟨[(u, .frameError "Consent required to participate")], st, q⟩
  else
    let pq := addToQueuePos q u
    ⟨[(u, .waiting pq.1)], st, pq.2⟩

/-- The AI-session record created by `pair_with_ai`
(`WebSocketManager.create_ai_session`). -/
structure AISessionRec where
  ai_id : String
  partner_id : String
  session_id : String
  persona_id : String
  persona_name : String
  provider : String
  model : String
  topic : String
  task : String
  is_active : Bool := true
  created_at : Nat
deriving DecidableEq

/-- What the success path of `pair_with_ai` produces. -/
structure PairAiResult where
  frames : List (String × Frame)
  sessions : SessionTable
  queue : List String
  aiSessions : String → Option AISessionRec
  storage : Storage

/-- The success path of `pair_with_ai` from `server/main.py` (lines 106-156),
entered once the AI participant was created: with the minted `ai_id` and
`session_id`, the chosen topic and the two tasks (`task0` for the human,
`task1` for the AI).  The calls `manager.update_session(user_id, paired=True,
partner_id=ai_id, session_id=session_id, task=tasks[0].text,
is_ai_partner=True)` and `manager.update_activity(user_id)` are unawaited
coroutines and never run, so the session table passes through unchanged (see
the file comment). -/
def pairWithAiSuccess (st : SessionTable) (q : List String)
    (aiS : String → Option AISessionRec) (stg : Storage)
    (u ai_id session_id topic task0 task1 : String)
    (persona_id persona_name provName provModel : String)
    (now : Nat) (startedAt : String) : PairAiResult :=
  let q1 := removeFromQueue q u
  let aiS1 := fun x =>
    if x = ai_id then
      some { ai_id := ai_id, partner_id := u, session_id := session_id,
             persona_id := persona_id, persona_name := persona_name,
             provider := provName, model := provModel, topic := topic,
             task := task1, is_active := true, created_at := now }
    else aiS x
  let stg1 := fun x =>
    if x = session_id then
      some { session_id := session_id, topic := topic,
             participants := [(u, task0), (ai_id, task1)], messages := [],
             started_at := startedAt, ended_at := none }
    else stg x
  ⟨[(u, .pairedFrame topic task0 session_id)], st, q1, aiS1, stg1⟩

/-- A concrete session table with two fresh sessions, for closed checks. -/
def twoFresh : SessionTable := fun x =>
  if x = "A" then some { user_id := "A" }
  else if x = "B" then some { user_id := "B" } else none

/-! ## Theorems -/

/-! ### Memory bound (C8) -/

/-- Both public entry-adding methods go through `_add_entry`. -/
theorem applyMemCall_eq (m : ConversationMemory) (c : MemCall) :
    applyMemCall m c = addEntry m (entryOf c) := by
  cases c <;> rfl

/-- `addEntry` keeps `max_entries`. -/
theorem addEntry_max (m : ConversationMemory) (e : MemoryEntry) :
    (addEntry m e).max_entries = m.max_entries := by
  by_cases h : m.max_entries < m.entries.length + 1 <;> simp [addEntry, h]

/-- For a positive bound, `_add_entry` leaves exactly the last
`max_entries`-many of the appended list. -/
theorem addEntry_entries (m : ConversationMemory) (e : MemoryEntry)
    (h : 1 ≤ m.max_entries) :
    (addEntry m e).entries
      = (m.entries ++ [e]).drop ((m.entries.length + 1) - m.max_entries) := by
  unfold addEntry pySliceLast
  by_cases hlt : m.max_entries < (m.entries ++ [e]).length
  · simp only [hlt, if_true]
    rw [if_neg (by omega)]
    simp
  · simp only [hlt, if_false]
    have : m.entries.length + 1 - m.max_entries = 0 := by
      simp at hlt
      omega
    simp [this]

/-- The bound holds right after an `_add_entry`. -/
theorem addEntry_len_le (m : ConversationMemory) (e : MemoryEntry)
    (h : 1 ≤ m.max_entries) :
    (addEntry m e).entries.length ≤ m.max_entries := by
  rw [addEntry_entries m e h]
  simp
  omega

/-- Dropping to the last `N` elements, appending, and dropping again is the
same as appending and dropping once. -/
theorem takeLast_append {α : Type} (B R : List α) (N : Nat) :
    ((B.drop (B.length - N)) ++ R).drop (((B.drop (B.length - N)).length + R.length) - N)
      = (B ++ R).drop ((B.length + R.length) - N) := by
  have h1 : (B.drop (B.length - N)) ++ R = (B ++ R).drop (B.length - N) := by
    rw [List.drop_append_eq_append_drop]
    congr 1
    rw [show B.length - N - B.length = 0 by omega, List.drop_zero]
  rw [h1, List.drop_drop]
  congr 1
  simp
  omega

/-- Running any sequence of entry-adding calls keeps exactly the most recent
`max_entries` of all appended entries (bound assumed positive and initially
respected). -/
theorem runMemCalls_entries (cs : List MemCall) :
    ∀ m : ConversationMemory, 1 ≤ m.max_entries →
      m.entries.length ≤ m.max_entries →
      (runMemCalls m cs).entries
        = (m.entries ++ cs.map entryOf).drop
            ((m.entries.length + cs.length) - m.max_entries) ∧
      (runMemCalls m cs).max_entries = m.max_entries := by
  induction cs with
  | nil =>
    intro m h hlen
    simp [runMemCalls]
    rw [show m.entries.length - m.max_entries = 0 by omega, List.drop_zero]
  | cons c cs ih =>
    intro m h hlen
    have hfold : runMemCalls m (c :: cs) = runMemCalls (addEntry m (entryOf c)) cs := by
      simp [runMemCalls, List.foldl_cons, applyMemCall_eq]
    have h1 : 1 ≤ (addEntry m (entryOf c)).max_entries := by rw [addEntry_max]; exact h
    have h2 : (addEntry m (entryOf c)).entries.length ≤ (addEntry m (entryOf c)).max_entries := by
      rw [addEntry_max]; exact addEntry_len_le m _ h
    obtain ⟨he, hm⟩ := ih (addEntry m (entryOf c)) h1 h2
    rw [hfold]
    refine ⟨?_, by rw [hm, addEntry_max]⟩
    rw [he, addEntry_max, addEntry_entries m _ h]
    rw [show m.entries.length + 1 - m.max_entries
          = (m.entries ++ [entryOf c]).length - m.max_entries by simp]
    rw [show cs.length = (cs.map entryOf).length by simp]
    rw [takeLast_append]
    simp
    congr 1
    omega

/-- C8 (corrected): for every `ConversationMemory` with a positive
`max_entries` bound and every sequence of `add_partner_message` /
`add_ai_message` calls, the stored entry list never exceeds `max_entries`
elements, and the retained entries are exactly the most recent ones in
insertion order. -/
theorem memory_entries_most_recent (N : Nat) (hN : 1 ≤ N) (cs : List MemCall) :
    (runMemCalls { max_entries := N } cs).entries
        = (cs.map entryOf).drop (cs.length - N) ∧
    (runMemCalls { max_entries := N } cs).entries.length ≤ N := by
  obtain ⟨he, _⟩ := runMemCalls_entries cs { max_entries := N } (by simpa) (by simp)
  constructor
  · rw [he]; simp
  · rw [he]; simp; omega

/-- C8 counterexample: with `max_entries = 0` the Python slice
`entries[-0:]` is the whole list, so the bound is exceeded after two adds. -/
theorem memory_unbounded_at_zero :
    (runMemCalls { max_entries := 0 }
        [MemCall.partner "hi" "neutral" 0, MemCall.partner "yo" "neutral" 1]).max_entries
      < (runMemCalls { max_entries := 0 }
        [MemCall.partner "hi" "neutral" 0, MemCall.partner "yo" "neutral" 1]).entries.length := by
  decide

/-- C8 witness: the amended claim applied at `max_entries = 1` and two
concrete calls. -/
theorem memory_entries_most_recent_witness :
    ((runMemCalls { max_entries := 1 }
        [MemCall.partner "a" "neutral" 0, MemCall.ai "b" "c" 1]).entries
        = ([MemCall.partner "a" "neutral" 0, MemCall.ai "b" "c" 1].map entryOf).drop
            ([MemCall.partner "a" "neutral" 0, MemCall.ai "b" "c" 1].length - 1) ∧
     (runMemCalls { max_entries := 1 }
        [MemCall.partner "a" "neutral" 0, MemCall.ai "b" "c" 1]).entries.length ≤ 1) :=
  memory_entries_most_recent 1 (by decide)
    [MemCall.partner "a" "neutral" 0, MemCall.ai "b" "c" 1]

/-! ### Atomic pairing (C1, C9) -/

/-- C9: `pair_users_atomic` does not require the two ids to differ: pairing an
existing unpaired session `A` with itself succeeds and leaves `A` paired to
itself, with the task of the second task argument (both mutation blocks hit
the same session object, and the partner block runs last). -/
theorem pair_users_atomic_self (st : SessionTable) (A sid t1 t2 : String)
    (n1 n2 : Nat) (a : UserSession) (ha : st A = some a) (hp : a.paired = false) :
    (pairUsersAtomic st A A sid t1 t2 n1 n2).1 = true ∧
    (pairUsersAtomic st A A sid t1 t2 n1 n2).2 A
      = some { a with paired := true, partner_id := some A, session_id := some sid,
                      task := some t2, is_ai_partner := false,
                      last_activity := some n2 } := by
  unfold pairUsersAtomic
  rw [ha]
  simp [hp, setSession, pairFields]

/-- C9 witness: a single fresh session paired with itself. -/
theorem pair_users_atomic_self_witness :
    (pairUsersAtomic (fun x => if x = "A" then some { user_id := "A" } else none)
        "A" "A" "s1" "t1" "t2" 3 4).1 = true ∧
    (pairUsersAtomic (fun x => if x = "A" then some { user_id := "A" } else none)
        "A" "A" "s1" "t1" "t2" 3 4).2 "A"
      = some { user_id := "A", paired := true, partner_id := some "A",
               session_id := some "s1", task := some "t2", is_ai_partner := false,
               last_activity := some 4 } := by
  have h := pair_users_atomic_self
    (fun x => if x = "A" then some { user_id := "A" } else none)
    "A" "s1" "t1" "t2" 3 4 { user_id := "A" } (by decide) rfl
  exact h

/-! ### Wait queue (C7, C10) -/

/-- When every entry is delayed, the partner loop finds nobody and restores
the queue. -/
theorem tryPairLoop_all_delayed (delayed : String → Bool) (l : List String)
    (h : ∀ w ∈ l, delayed w = true) : tryPairLoop delayed l = (none, l) := by
  induction l with
  | nil => rfl
  | cons c t ih =>
    simp [tryPairLoop, h c (List.mem_cons_self c t),
          ih (fun w hw => h w (List.mem_cons_of_mem _ hw))]

/-- When `u` is in the queue and every other entry is delayed, the partner
loop finds `u` exactly when `u` is not delayed. -/
theorem tryPairLoop_unique (delayed : String → Bool) (u : String) :
    ∀ l : List String, u ∈ l → (∀ w ∈ l, w ≠ u → delayed w = true) →
      ((tryPairLoop delayed l).1 = some u ↔ delayed u = false) := by
  intro l
  induction l with
  | nil => simp
  | cons c t ih =>
    intro hu hall
    by_cases hc : delayed c = true
    · by_cases hcu : c = u
      · subst hcu
        have hall' : ∀ w ∈ t, delayed w = true := by
          intro w hw
          by_cases hwu : w = c
          · rw [hwu]; exact hc
          · exact hall w (List.mem_cons_of_mem _ hw) hwu
        simp [tryPairLoop, hc, tryPairLoop_all_delayed delayed t hall']
      · have hut : u ∈ t := by
          rcases List.mem_cons.mp hu with h | h
          · exact absurd h.symm hcu
          · exact h
        have := ih hut (fun w hw hwu => hall w (List.mem_cons_of_mem _ hw) hwu)
        simpa [tryPairLoop, hc] using this
    · have hcu : c = u := by
        by_contra hne
        exact hc (hall c (List.mem_cons_self c t) hne)
      subst hcu
      have hcf : delayed c = false := by simpa using hc
      simp [tryPairLoop, hcf]

/-- A list with two distinct members has length at least two. -/
theorem two_le_length_of_two_mem {α : Type} (l : List α) (a b : α)
    (ha : a ∈ l) (hb : b ∈ l) (hab : a ≠ b) : 2 ≤ l.length := by
  cases l with
  | nil => simp at ha
  | cons x t =>
    cases t with
    | nil =>
      simp at ha hb
      exact absurd (ha.trans hb.symm) hab
    | cons y t' => simp

/-- C10: a cooled-down requester gets `none` and the queue is untouched; a
requester with no eligible partner gets `none` and is re-appended at the back
behind the skipped cooldown entries, which keep their order. -/
theorem try_pair_requeue_frame (delayed : String → Bool) (u : String) (q : List String) :
    (delayed u = true → tryPair delayed u q = (none, q)) ∧
    (delayed u = false → u ∈ q → q.Nodup → (∀ w ∈ q, w ≠ u → delayed w = true) →
      tryPair delayed u q = (none, q.erase u ++ [u])) := by
  constructor
  · intro h; simp [tryPair, h]
  · intro hd hu hnd hall
    by_cases hlen : q.length < 2
    · have hq : q = [u] := by
        cases q with
        | nil => simp at hu
        | cons a t =>
          cases t with
          | nil => simp at hu; rw [hu]
          | cons b t' => simp at hlen; omega
      subst hq
      simp [tryPair, hd]
    · have hq1 : removeFromQueue q u = q.erase u := by simp [removeFromQueue, hu]
      have hall2 : ∀ w ∈ q.erase u, delayed w = true := by
        intro w hw
        obtain ⟨hne, hin⟩ := (List.Nodup.mem_erase_iff hnd).mp hw
        exact hall w hin hne
      have hnotin : u ∉ q.erase u := by
        intro hmem
        exact ((List.Nodup.mem_erase_iff hnd).mp hmem).1 rfl
      simp [tryPair, hd, hlen, hq1,
            tryPairLoop_all_delayed delayed (q.erase u) hall2,
            addToQueue, hnotin]

/-- C10 witness: both branches at concrete queues (`w` is the only delayed
user). -/
theorem try_pair_requeue_frame_witness :
    tryPair (fun x => x == "w") "w" ["w", "z"] = (none, ["w", "z"]) ∧
    tryPair (fun x => x == "w") "u" ["w", "u"]
      = (none, (["w", "u"] : List String).erase "u" ++ ["u"]) :=
  ⟨(try_pair_requeue_frame (fun x => x == "w") "w" ["w", "z"]).1 (by decide),
   (try_pair_requeue_frame (fun x => x == "w") "u" ["w", "u"]).2
     (by decide) (by decide) (by decide) (by decide)⟩

/-- C7 counterexample: with an empty queue, `enqueue u` then `try_pair v`
returns `none` even though `u` is not in cooldown (the `len(queue) < 2` guard
fires because `v` is not itself queued), so the claimed equivalence fails. -/
theorem try_pair_enqueue_iff_fails :
    ¬ (((tryPair (fun _ => false) "v" (addToQueue [] "u")).1 = some "u")
        ↔ ((fun _ => false : String → Bool) "u" = false)) := by
  decide

/-- C7 (amended): after `add_to_queue u`, a dequeue attempt by `v ≠ u` returns
`u` exactly when `u` is not in cooldown — provided `v` is itself queued and
not in cooldown, the queue has no duplicates, and every queued user other
than `u` and `v` is in cooldown. -/
theorem try_pair_enqueue_dequeue (delayed : String → Bool) (u v : String)
    (q : List String) (hvu : v ≠ u) (hv : v ∈ q) (hvd : delayed v = false)
    (hnd : q.Nodup) (hall : ∀ w ∈ q, w ≠ u → w ≠ v → delayed w = true) :
    ((tryPair delayed v (addToQueue q u)).1 = some u ↔ delayed u = false) := by
  have huv : u ≠ v := fun h => hvu h.symm
  by_cases hu : u ∈ q
  all_goals (
    first
      | (have hQ : addToQueue q u = q := by simp [addToQueue, hu])
      | (have hQ : addToQueue q u = q ++ [u] := by simp [addToQueue, hu]))
  · -- u was already queued
    rw [hQ]
    have h2 : ¬ q.length < 2 := by
      have := two_le_length_of_two_mem q u v hu hv huv
      omega
    have hq1 : removeFromQueue q v = q.erase v := by simp [removeFromQueue, hv]
    have hmemu2 : u ∈ q.erase v := (List.Nodup.mem_erase_iff hnd).mpr ⟨huv, hu⟩
    have hall2 : ∀ w ∈ q.erase v, w ≠ u → delayed w = true := by
      intro w hw hwu
      obtain ⟨hne, hin⟩ := (List.Nodup.mem_erase_iff hnd).mp hw
      exact hall w hin hwu hne
    have hloop := tryPairLoop_unique delayed u (q.erase v) hmemu2 hall2
    simp only [tryPair, hvd, Bool.false_eq_true, if_false, h2, hq1]
    rcases hres : tryPairLoop delayed (q.erase v) with ⟨p, q2⟩
    rw [hres] at hloop
    cases p <;> simpa using hloop
  · -- u was appended
    rw [hQ]
    have hmemu : u ∈ q ++ [u] := by simp
    have hmemv : v ∈ q ++ [u] := by simp [hv]
    have hndQ : (q ++ [u]).Nodup := by
      simp [List.nodup_append, hnd, hu]
    have h2 : ¬ (q ++ [u]).length < 2 := by
      have := two_le_length_of_two_mem (q ++ [u]) u v hmemu hmemv huv
      omega
    have hq1 : removeFromQueue (q ++ [u]) v = (q ++ [u]).erase v := by
      simp [removeFromQueue, hmemv]
    have hmemu2 : u ∈ (q ++ [u]).erase v := (List.Nodup.mem_erase_iff hndQ).mpr ⟨huv, hmemu⟩
    have hall2 : ∀ w ∈ (q ++ [u]).erase v, w ≠ u → delayed w = true := by
      intro w hw hwu
      obtain ⟨hne, hin⟩ := (List.Nodup.mem_erase_iff hndQ).mp hw
      rcases List.mem_append.mp hin with h | h
      · exact hall w h hwu hne
      · simp at h; exact absurd h hwu
    have hloop := tryPairLoop_unique delayed u ((q ++ [u]).erase v) hmemu2 hall2
    simp only [tryPair, hvd, Bool.false_eq_true, if_false, h2, hq1]
    rcases hres : tryPairLoop delayed ((q ++ [u]).erase v) with ⟨p, q2⟩
    rw [hres] at hloop
    cases p <;> simpa using hloop

/-- C7 witness: queue `[v]`, nobody delayed; the dequeue returns `u`. -/
theorem try_pair_enqueue_dequeue_witness :
    ((tryPair (fun _ => false) "v" (addToQueue ["v"] "u")).1 = some "u"
      ↔ (fun _ => false : String → Bool) "u" = false) :=
  try_pair_enqueue_dequeue (fun _ => false) "u" "v" ["v"]
    (by decide) (by decide) rfl (by decide) (by decide)

/-- C1: for distinct ids `A ≠ B`, `pair_users_atomic` returns true iff both
sessions exist and neither is paired; on success each side gets the mutual
pairing fields (`pairFields` is exactly the six assignments of one block); on
failure the session table is completely unchanged. -/
theorem pair_users_atomic_spec (st : SessionTable) (A B sid tA tB : String)
    (n1 n2 : Nat) (hAB : A ≠ B) :
    ((pairUsersAtomic st A B sid tA tB n1 n2).1 = true ↔
      ∃ a b, st A = some a ∧ st B = some b ∧ a.paired = false ∧ b.paired = false) ∧
    (∀ a b, st A = some a → st B = some b →
      (pairUsersAtomic st A B sid tA tB n1 n2).1 = true →
      (pairUsersAtomic st A B sid tA tB n1 n2).2 A = some (pairFields a B sid tA n1) ∧
      (pairUsersAtomic st A B sid tA tB n1 n2).2 B = some (pairFields b A sid tB n2)) ∧
    ((pairUsersAtomic st A B sid tA tB n1 n2).1 = false →
      (pairUsersAtomic st A B sid tA tB n1 n2).2 = st) := by
  have hBA : B ≠ A := fun h => hAB h.symm
  rcases hA : st A with _ | a
  · have hres : pairUsersAtomic st A B sid tA tB n1 n2 = (false, st) := by
      unfold pairUsersAtomic
      rw [hA]
    refine ⟨?_, ?_, ?_⟩
    · simp [hres]
    · intro a b ha _ _
      exact absurd ha (by simp)
    · intro _
      rw [hres]
  rcases hB : st B with _ | b
  · have hres : pairUsersAtomic st A B sid tA tB n1 n2 = (false, st) := by
      unfold pairUsersAtomic
      rw [hA, hB]
    refine ⟨?_, ?_, ?_⟩
    · rw [hres]
      simp only [Bool.false_eq_true, false_iff]
      rintro ⟨a', b', _, hb', _, _⟩
      exact absurd hb' (by simp)
    · intro a b _ hb _
      exact absurd hb (by simp)
    · intro _
      rw [hres]
  by_cases hp : (a.paired || b.paired) = true
  · have hres : pairUsersAtomic st A B sid tA tB n1 n2 = (false, st) := by
      unfold pairUsersAtomic
      rw [hA, hB]
      simp [hp]
    refine ⟨?_, ?_, ?_⟩
    · rw [hres]
      simp only [Bool.false_eq_true, false_iff]
      rintro ⟨a', b', ha', hb', pa, pb⟩
      cases ha'
      cases hb'
      simp_all
    · intro a' b' _ _ htrue
      rw [hres] at htrue
      cases htrue
    · intro _
      rw [hres]
  · have hor : (a.paired || b.paired) = false := by simpa using hp
    obtain ⟨hpa, hpb⟩ := Bool.or_eq_false_iff.mp hor
    have hres : pairUsersAtomic st A B sid tA tB n1 n2
        = (true, setSession (setSession st A (pairFields a B sid tA n1)) B
                   (pairFields b A sid tB n2)) := by
      unfold pairUsersAtomic
      rw [hA, hB]
      simp [hp, setSession, hBA, hB]
    refine ⟨?_, ?_, ?_⟩
    · rw [hres]
      simp only [true_iff]
      exact ⟨a, b, rfl, rfl, hpa, hpb⟩
    · intro a' b' ha' hb' _
      cases ha'
      cases hb'
      rw [hres]
      constructor
      · simp [setSession, hAB]
      · simp [setSession]
    · intro hfalse
      rw [hres] at hfalse
      cases hfalse

/-- C1 witness: `pair_users_atomic` on the table with the two fresh sessions
`A` and `B`. -/
theorem pair_users_atomic_spec_witness :
    (((pairUsersAtomic twoFresh "A" "B" "s1" "tA" "tB" 3 4).1 = true ↔
      ∃ a b, twoFresh "A" = some a ∧ twoFresh "B" = some b ∧
        a.paired = false ∧ b.paired = false) ∧
    (∀ a b, twoFresh "A" = some a → twoFresh "B" = some b →
      (pairUsersAtomic twoFresh "A" "B" "s1" "tA" "tB" 3 4).1 = true →
      (pairUsersAtomic twoFresh "A" "B" "s1" "tA" "tB" 3 4).2 "A"
          = some (pairFields a "B" "s1" "tA" 3) ∧
      (pairUsersAtomic twoFresh "A" "B" "s1" "tA" "tB" 3 4).2 "B"
          = some (pairFields b "A" "s1" "tB" 4)) ∧
    ((pairUsersAtomic twoFresh "A" "B" "s1" "tA" "tB" 3 4).1 = false →
      (pairUsersAtomic twoFresh "A" "B" "s1" "tA" "tB" 3 4).2 = twoFresh)) :=
  pair_users_atomic_spec twoFresh "A" "B" "s1" "tA" "tB" 3 4 (by decide)

/-! ### Missing awaits (C2, C4) and message validation (C3) -/

/-- C2 evidence: on the success path of `pair_with_ai` the human session is
left completely unchanged — in particular not paired and without an AI
partner — because the `update_session` / `update_activity` coroutines are
never awaited; only the queue removal, the AI session record, the stored
conversation and the `paired` frame happen. -/
theorem pair_with_ai_leaves_session_unpaired :
    ((pairWithAiSuccess
        (fun x => if x = "user_1" then some { user_id := "user_1" } else none)
        ["user_1"] (fun _ => none) (fun _ => none)
        "user_1" "ai_1" "sess1" "topicA" "taskH" "taskAI" "p1" "Pat" "openai" "gpt"
        7 "t0").sessions "user_1" = some { user_id := "user_1" }) ∧
    (Option.map (fun s => s.paired)
      ((pairWithAiSuccess
        (fun x => if x = "user_1" then some { user_id := "user_1" } else none)
        ["user_1"] (fun _ => none) (fun _ => none)
        "user_1" "ai_1" "sess1" "topicA" "taskH" "taskAI" "p1" "Pat" "openai" "gpt"
        7 "t0").sessions "user_1") = some false) ∧
    (Option.map (fun s => s.is_ai_partner)
      ((pairWithAiSuccess
        (fun x => if x = "user_1" then some { user_id := "user_1" } else none)
        ["user_1"] (fun _ => none) (fun _ => none)
        "user_1" "ai_1" "sess1" "topicA" "taskH" "taskAI" "p1" "Pat" "openai" "gpt"
        7 "t0").sessions "user_1") = some false) ∧
    (Option.map (fun s => s.partner_id)
      ((pairWithAiSuccess
        (fun x => if x = "user_1" then some { user_id := "user_1" } else none)
        ["user_1"] (fun _ => none) (fun _ => none)
        "user_1" "ai_1" "sess1" "topicA" "taskH" "taskAI" "p1" "Pat" "openai" "gpt"
        7 "t0").sessions "user_1") = some none) ∧
    ((pairWithAiSuccess
        (fun x => if x = "user_1" then some { user_id := "user_1" } else none)
        ["user_1"] (fun _ => none) (fun _ => none)
        "user_1" "ai_1" "sess1" "topicA" "taskH" "taskAI" "p1" "Pat" "openai" "gpt"
        7 "t0").frames = [("user_1", Frame.pairedFrame "topicA" "taskH" "sess1")]) ∧
    ((pairWithAiSuccess
        (fun x => if x = "user_1" then some { user_id := "user_1" } else none)
        ["user_1"] (fun _ => none) (fun _ => none)
        "user_1" "ai_1" "sess1" "topicA" "taskH" "taskAI" "p1" "Pat" "openai" "gpt"
        7 "t0").queue = []) := by
  decide

/-- C4 evidence: a consenting join enqueues the user and sends
`waiting{position = 1}`, but the session's `consented` flag is still `false`
afterwards, because the `update_session(user_id, consented=True)` coroutine is
never awaited. -/
theorem join_consent_never_recorded :
    ((handleJoinBeforePairing
        (fun x => if x = "user_1" then some { user_id := "user_1" } else none)
        [] "user_1" true).sessions "user_1" = some { user_id := "user_1" }) ∧
    (Option.map (fun s => s.consented)
      ((handleJoinBeforePairing
        (fun x => if x = "user_1" then some { user_id := "user_1" } else none)
        [] "user_1" true).sessions "user_1") = some false) ∧
    ((handleJoinBeforePairing
        (fun x => if x = "user_1" then some { user_id := "user_1" } else none)
        [] "user_1" true).frames = [("user_1", Frame.waiting 1)]) ∧
    ((handleJoinBeforePairing
        (fun x => if x = "user_1" then some { user_id := "user_1" } else none)
        [] "user_1" true).queue = ["user_1"]) := by
  decide

/-- C3: a message frame from a paired user whose think field is shorter than
`MIN_THINK_CHARS` or whose speech is blank after stripping produces exactly
one frame — an error back to the sender — leaves the conversation storage
untouched, and forwards nothing to the partner (human or AI). -/
theorem chat_message_validation (st : SessionTable) (conns : String → Bool)
    (aiPartnerOf : String → Option String) (aiM : Bool) (stg : Storage)
    (u think speech ts : String) (s : UserSession)
    (hs : st u = some s) (hp : s.paired = true)
    (hv : think.length < minThinkChars ∨ pyStripStr speech = "") :
    ∃ msg,
      (handleChatMessage st conns aiPartnerOf aiM stg u think speech ts).frames
        = [(u, Frame.frameError msg)] ∧
      (handleChatMessage st conns aiPartnerOf aiM stg u think speech ts).storage = stg ∧
      (handleChatMessage st conns aiPartnerOf aiM stg u think speech ts).aiForward = none := by
  unfold handleChatMessage
  rw [hs]
  simp only [hp, Bool.true_eq_false, if_false]
  rcases hpid : s.partner_id with _ | pid
  · exact ⟨"Partner connection lost", by simp, by simp, by simp⟩
  · by_cases hmf : (if s.is_ai_partner then false
        else match st pid with
             | none => true
             | some ps => ps.partner_id != some u) = true
    · refine ⟨"Partner connection lost", ?_, ?_, ?_⟩ <;> simp [hmf]
    · by_cases hty : think.length < minThinkChars
      · refine ⟨"Think field must be at least " ++ toString minThinkChars ++ " characters",
                ?_, ?_, ?_⟩ <;> simp [hmf, hty]
      · have hsp : pyStripStr speech = "" := hv.resolve_left hty
        refine ⟨"Speech field cannot be empty", ?_, ?_, ?_⟩ <;> simp [hmf, hty, hsp]

/-- C3 witness: a paired user sends a five-character think field. -/
theorem chat_message_validation_witness :
    ∃ msg,
      (handleChatMessage
        (fun x => if x = "u1" then
            some { user_id := "u1", paired := true, partner_id := some "u2" }
          else if x = "u2" then
            some { user_id := "u2", paired := true, partner_id := some "u1" }
          else none)
        (fun _ => true) (fun _ => none) true (fun _ => none)
        "u1" "short" "hello" "t1").frames = [("u1", Frame.frameError msg)] ∧
      (handleChatMessage
        (fun x => if x = "u1" then
            some { user_id := "u1", paired := true, partner_id := some "u2" }
          else if x = "u2" then
            some { user_id := "u2", paired := true, partner_id := some "u1" }
          else none)
        (fun _ => true) (fun _ => none) true (fun _ => none)
        "u1" "short" "hello" "t1").storage = (fun _ => none) ∧
      (handleChatMessage
        (fun x => if x = "u1" then
            some { user_id := "u1", paired := true, partner_id := some "u2" }
          else if x = "u2" then
            some { user_id := "u2", paired := true, partner_id := some "u1" }
          else none)
        (fun _ => true) (fun _ => none) true (fun _ => none)
        "u1" "short" "hello" "t1").aiForward = none :=
  chat_message_validation _ _ _ _ _ "u1" "short" "hello" "t1"
    { user_id := "u1", paired := true, partner_id := some "u2" }
    (by decide) rfl (Or.inl (by decide))

/-! ### Tag parsing (C5) -/

/-- A list is a prefix of itself followed by anything. -/
theorem isPre_self_append (l r : List Char) : isPre l (l ++ r) = true := by
  induction l with
  | nil => rfl
  | cons a as ih => simp [isPre, ih]

/-- The first occurrence of a non-empty needle laid at the front is the
front. -/
theorem dropToAfter_self (needle r : List Char) (h : needle ≠ []) :
    dropToAfter needle (needle ++ r) = some r := by
  cases needle with
  | nil => exact absurd rfl h
  | cons a as =>
    show dropToAfter (a :: as) (a :: (as ++ r)) = some r
    rw [dropToAfter]
    rw [if_pos]
    · simp
    · exact isPre_self_append (a :: as) r

/-- Same for `takeToFirst`: the matched part before the needle is empty. -/
theorem takeToFirst_self (needle r : List Char) (h : needle ≠ []) :
    takeToFirst needle (needle ++ r) = some [] := by
  cases needle with
  | nil => exact absurd rfl h
  | cons a as =>
    show takeToFirst (a :: as) (a :: (as ++ r)) = some []
    rw [takeToFirst]
    rw [if_pos]
    exact isPre_self_append (a :: as) r

/-- A needle beginning with `<` cannot start inside a `<`-free block, so the
search slides over it. -/
theorem dropToAfter_skip (needle T rest : List Char)
    (hh : needle.head? = some '<') (hT : '<' ∉ T) :
    dropToAfter needle (T ++ rest) = dropToAfter needle rest := by
  cases needle with
  | nil => simp at hh
  | cons a n' =>
    have ha : a = '<' := by simpa using hh
    subst ha
    induction T with
    | nil => rfl
    | cons c T' ih =>
      have hc : c ≠ '<' := fun h => hT (h ▸ List.mem_cons_self c T')
      have hpre : isPre ('<' :: n') (c :: (T' ++ rest)) = false := by
        simp [isPre, Ne.symm hc]
      show dropToAfter ('<' :: n') (c :: (T' ++ rest)) = dropToAfter ('<' :: n') rest
      rw [dropToAfter, if_neg (by simp [hpre])]
      exact ih (fun h => hT (List.mem_cons_of_mem _ h))

/-- A needle beginning with `<` does not occur in a `<`-free string. -/
theorem dropToAfter_none (needle S : List Char)
    (hh : needle.head? = some '<') (hS : '<' ∉ S) :
    dropToAfter needle S = none := by
  cases needle with
  | nil => simp at hh
  | cons a n' =>
    have ha : a = '<' := by simpa using hh
    subst ha
    induction S with
    | nil => rfl
    | cons c S' ih =>
      have hc : c ≠ '<' := fun h => hS (h ▸ List.mem_cons_self c S')
      have hpre : isPre ('<' :: n') (c :: S') = false := by
        simp [isPre, Ne.symm hc]
      rw [dropToAfter, if_neg (by simp [hpre])]
      exact ih (fun h => hS (List.mem_cons_of_mem _ h))

/-- Sliding `takeToFirst` over a `<`-free block collects that block. -/
theorem takeToFirst_skip (needle T rest : List Char)
    (hh : needle.head? = some '<') (hT : '<' ∉ T) :
    takeToFirst needle (T ++ rest) = (takeToFirst needle rest).map (T ++ ·) := by
  cases needle with
  | nil => simp at hh
  | cons a n' =>
    have ha : a = '<' := by simpa using hh
    subst ha
    induction T with
    | nil =>
      simp
    | cons c T' ih =>
      have hc : c ≠ '<' := fun h => hT (h ▸ List.mem_cons_self c T')
      have hpre : isPre ('<' :: n') (c :: (T' ++ rest)) = false := by
        simp [isPre, Ne.symm hc]
      show takeToFirst ('<' :: n') (c :: (T' ++ rest))
          = (takeToFirst ('<' :: n') rest).map ((c :: T') ++ ·)
      rw [takeToFirst, if_neg (by simp [hpre])]
      rw [ih (fun h => hT (List.mem_cons_of_mem _ h))]
      cases takeToFirst ('<' :: n') rest <;> simp

/-- The speech-tag search finds nothing in `<think>T</think>S` when `T` and
`S` are `<`-free: the only `<` characters sit at the two think tags, where the
speech tag mismatches immediately. -/
theorem dropToAfter_speechOpen_none (T S : List Char) (hT : '<' ∉ T) (hS : '<' ∉ S) :
    dropToAfter speechOpen (thinkOpen ++ (T ++ (thinkClose ++ S))) = none := by
  have h1 : dropToAfter speechOpen (thinkOpen ++ (T ++ (thinkClose ++ S)))
      = dropToAfter speechOpen (T ++ (thinkClose ++ S)) := rfl
  have h2 : dropToAfter speechOpen (thinkClose ++ S) = dropToAfter speechOpen S := rfl
  rw [h1, dropToAfter_skip speechOpen T _ rfl hT, h2,
      dropToAfter_none speechOpen S rfl hS]

/-- C5 counterexample: constructing an `LLMResponse` from the stored content
`<think>a</think>b` yields `think = "a"` but `speech = ""`, not `"b"`: the
trailing text after `</think>` is not recovered as speech. -/
theorem parse_canonical_loses_speech :
    ¬ ((mkLLMResponse (thinkOpen ++ ['a'] ++ thinkClose ++ ['b']) [] []).think = ['a'] ∧
       (mkLLMResponse (thinkOpen ++ ['a'] ++ thinkClose ++ ['b']) [] []).speech = ['b']) := by
  decide

/-- C5 (amended): for `<`-free `T` and `S` with `T` not blank, parsing the
stored content `<think>T</think>S` yields `think = T.strip()` and leaves
`speech` empty — `S` is not recovered. -/
theorem parse_canonical_content (T S : List Char) (hT : '<' ∉ T) (hS : '<' ∉ S)
    (hTne : pyStrip T ≠ []) :
    mkLLMResponse (thinkOpen ++ T ++ thinkClose ++ S) [] []
      = ⟨thinkOpen ++ T ++ thinkClose ++ S, pyStrip T, []⟩ := by
  have hassoc : thinkOpen ++ T ++ thinkClose ++ S
      = thinkOpen ++ (T ++ (thinkClose ++ S)) := by
    simp [List.append_assoc]
  have hth : reSearchGroup thinkOpen thinkClose (thinkOpen ++ T ++ thinkClose ++ S)
      = some T := by
    unfold reSearchGroup
    rw [hassoc, dropToAfter_self thinkOpen _ (by decide)]
    show takeToFirst thinkClose (T ++ (thinkClose ++ S)) = some T
    rw [takeToFirst_skip thinkClose T _ rfl hT]
    rw [takeToFirst_self thinkClose S (by decide)]
    simp
  have hsp : reSearchGroup speechOpen speechClose (thinkOpen ++ T ++ thinkClose ++ S)
      = none := by
    unfold reSearchGroup
    rw [hassoc, dropToAfter_speechOpen_none T S hT hS]
  have hne : thinkOpen ++ T ++ thinkClose ++ S ≠ [] := by
    rw [hassoc]
    exact List.cons_ne_nil _ _
  unfold mkLLMResponse
  rw [if_pos ⟨hne, rfl, rfl⟩]
  simp only [hth, hsp]
  rw [if_neg]
  intro hcon
  exact hTne hcon.1

/-- C5 witness: `T = "a"`, `S = "b"`. -/
theorem parse_canonical_content_witness :
    mkLLMResponse (thinkOpen ++ ['a'] ++ thinkClose ++ ['b']) [] []
      = ⟨thinkOpen ++ ['a'] ++ thinkClose ++ ['b'], pyStrip ['a'], []⟩ :=
  parse_canonical_content ['a'] ['b'] (by decide) (by decide) (by decide)

/-! ### Sanitization (C6) -/

/-- A scan whose matcher never fires leaves the text unchanged. -/
theorem reSubGoF_id (m : Char → List Char → Option Nat) (l : List Char)
    (h : ∀ c ∈ l, ∀ t, m c t = none) : ∀ f, reSubGoF m f l = l := by
  induction l with
  | nil => intro f; cases f <;> rfl
  | cons c t ih =>
    intro f
    cases f with
    | zero => rfl
    | succ f' =>
      simp [reSubGoF, h c (List.mem_cons_self c t),
            ih (fun d hd t' => h d (List.mem_cons_of_mem _ hd) t') f']

theorem tagMatch_ne (c : Char) (t : List Char) (h : c ≠ '<') : tagMatch c t = none := by
  simp [tagMatch, h]

theorem brMatch_ne (c : Char) (t : List Char) (h : c ≠ '[') : brMatch c t = none := by
  simp [brMatch, h]

theorem stageMatch_ne (c : Char) (t : List Char) (h : c ≠ '(') : stageMatch c t = none := by
  simp [stageMatch, h]

theorem actionMatch_ne (c : Char) (t : List Char) (h : c ≠ '(') : actionMatch c t = none := by
  simp [actionMatch, h]

/-- Characters of the collapsed text come from the input or are blanks. -/
theorem mem_collapseWsF : ∀ (f : Nat) (l : List Char) (c : Char),
    c ∈ collapseWsF f l → c ∈ l ∨ c = ' ' := by
  intro f
  induction f with
  | zero =>
    intro l
    cases l with
    | nil => intro c hc; simp [collapseWsF] at hc
    | cons a t => intro c hc; exact Or.inl (by simpa [collapseWsF] using hc)
  | succ f' ih =>
    intro l
    cases l with
    | nil => intro c hc; simp [collapseWsF] at hc
    | cons a t =>
      intro c hc
      by_cases ha : isPySpace a = true
      · rw [show collapseWsF (f' + 1) (a :: t)
              = ' ' :: collapseWsF f' (t.dropWhile isPySpace) by
            simp [collapseWsF, ha]] at hc
        rcases List.mem_cons.mp hc with hc | hc
        · exact Or.inr hc
        · rcases ih _ c hc with h1 | h1
          · exact Or.inl (List.mem_cons_of_mem _
              ((List.dropWhile_sublist isPySpace).mem h1))
          · exact Or.inr h1
      · rw [show collapseWsF (f' + 1) (a :: t) = a :: collapseWsF f' t by
            simp [collapseWsF, ha]] at hc
        rcases List.mem_cons.mp hc with hc | hc
        · exact Or.inl (hc ▸ List.mem_cons_self a t)
        · rcases ih _ c hc with h1 | h1
          · exact Or.inl (List.mem_cons_of_mem _ h1)
          · exact Or.inr h1

/-- Characters survive `dropTrailingSpace` only from the input. -/
theorem mem_dropTrailingSpace : ∀ (l : List Char) (c : Char),
    c ∈ dropTrailingSpace l → c ∈ l := by
  intro l
  induction l with
  | nil => simp [dropTrailingSpace]
  | cons a t ih =>
    intro c hc
    rw [dropTrailingSpace] at hc
    rcases hr : dropTrailingSpace t with _ | ⟨d, r⟩
    · rw [hr] at hc
      by_cases ha : isPySpace a = true
      · simp [ha] at hc
      · simp [ha] at hc
        exact hc ▸ List.mem_cons_self a t
    · rw [hr] at hc
      rcases List.mem_cons.mp hc with h1 | h1
      · exact h1 ▸ List.mem_cons_self a t
      · exact List.mem_cons_of_mem _ (ih c (hr ▸ h1))

theorem mem_pyStrip (l : List Char) (c : Char) (h : c ∈ pyStrip l) : c ∈ l :=
  (List.dropWhile_sublist isPySpace).mem (mem_dropTrailingSpace _ c h)

theorem dropWhile_length_le (p : Char → Bool) (l : List Char) :
    (l.dropWhile p).length ≤ l.length :=
  (List.dropWhile_sublist p).length_le

/-- The head surviving a `dropWhile` fails the predicate. -/
theorem dropWhile_head_not (p : Char → Bool) (l : List Char) :
    ∀ hd, (l.dropWhile p).head? = some hd → p hd = false := by
  induction l with
  | nil => intro hd h; simp [List.dropWhile] at h
  | cons a t ih =>
    intro hd h
    by_cases ha : p a = true
    · rw [List.dropWhile_cons_of_pos ha] at h
      exact ih hd h
    · rw [List.dropWhile_cons_of_neg ha] at h
      have : a = hd := by simpa using h
      subst this
      simpa using ha

theorem blanksOnly_collapseWsF : ∀ (f : Nat) (l : List Char), l.length ≤ f →
    blanksOnly (collapseWsF f l) = true := by
  intro f
  induction f with
  | zero =>
    intro l hl
    have : l = [] := List.length_eq_zero.mp (Nat.le_zero.mp hl)
    subst this
    rfl
  | succ f' ih =>
    intro l hl
    cases l with
    | nil => rfl
    | cons a t =>
      by_cases ha : isPySpace a = true
      · rw [show collapseWsF (f' + 1) (a :: t)
              = ' ' :: collapseWsF f' (t.dropWhile isPySpace) by simp [collapseWsF, ha]]
        have hrec := ih (t.dropWhile isPySpace)
          (le_trans (dropWhile_length_le isPySpace t) (by simpa using hl))
        simp [blanksOnly] at hrec ⊢
        exact hrec
      · rw [show collapseWsF (f' + 1) (a :: t) = a :: collapseWsF f' t by
              simp [collapseWsF, ha]]
        have hrec := ih t (by simpa using hl)
        simp [blanksOnly] at hrec ⊢
        exact ⟨Or.inl (by simpa using ha), hrec⟩

theorem noAdjSpace_tail (c : Char) (t : List Char)
    (h : noAdjSpace (c :: t) = true) : noAdjSpace t = true := by
  cases t with
  | nil => rfl
  | cons d r =>
    rw [noAdjSpace, Bool.and_eq_true] at h
    exact h.2

theorem noAdjSpace_cons_of (c : Char) (t : List Char) (ht : noAdjSpace t = true)
    (h : ∀ d, t.head? = some d → (isPySpace c && isPySpace d) = false) :
    noAdjSpace (c :: t) = true := by
  cases t with
  | nil => rfl
  | cons d r =>
    rw [noAdjSpace, Bool.and_eq_true]
    exact ⟨by simp [h d rfl], ht⟩

/-- Collapsing keeps the head when it is not whitespace. -/
theorem collapseWsF_head (f : Nat) (r : List Char)
    (h : ∀ d, r.head? = some d → isPySpace d = false) :
    (collapseWsF f r).head? = r.head? := by
  cases r with
  | nil => cases f <;> rfl
  | cons a t =>
    have ha : isPySpace a = false := h a rfl
    cases f with
    | zero => rfl
    | succ f' => simp [collapseWsF, ha]

theorem noAdjSpace_collapseWsF : ∀ (f : Nat) (l : List Char), l.length ≤ f →
    noAdjSpace (collapseWsF f l) = true := by
  intro f
  induction f with
  | zero =>
    intro l hl
    have : l = [] := List.length_eq_zero.mp (Nat.le_zero.mp hl)
    subst this
    rfl
  | succ f' ih =>
    intro l hl
    cases l with
    | nil => rfl
    | cons a t =>
      by_cases ha : isPySpace a = true
      · rw [show collapseWsF (f' + 1) (a :: t)
              = ' ' :: collapseWsF f' (t.dropWhile isPySpace) by simp [collapseWsF, ha]]
        apply noAdjSpace_cons_of
        · exact ih (t.dropWhile isPySpace)
            (le_trans (dropWhile_length_le isPySpace t) (by simpa using hl))
        · intro d hd
          rw [collapseWsF_head f' _ (dropWhile_head_not isPySpace t)] at hd
          simp [dropWhile_head_not isPySpace t d hd]
      · rw [show collapseWsF (f' + 1) (a :: t) = a :: collapseWsF f' t by
              simp [collapseWsF, ha]]
        apply noAdjSpace_cons_of
        · exact ih t (by simpa using hl)
        · intro d _
          simp [show isPySpace a = false by simpa using ha]

/-- On already-collapsed text the collapse is the identity. -/
theorem collapseWsF_id : ∀ (f : Nat) (l : List Char), l.length ≤ f →
    blanksOnly l = true → noAdjSpace l = true → collapseWsF f l = l := by
  intro f
  induction f with
  | zero =>
    intro l hl _ _
    have : l = [] := List.length_eq_zero.mp (Nat.le_zero.mp hl)
    subst this
    rfl
  | succ f' ih =>
    intro l hl hb hn
    cases l with
    | nil => rfl
    | cons a t =>
      have hbt : blanksOnly t = true := by
        simp [blanksOnly] at hb ⊢
        exact hb.2
      by_cases ha : isPySpace a = true
      · have haB : a = ' ' := by
          simp [blanksOnly, ha] at hb
          exact hb.1
        have hdt : t.dropWhile isPySpace = t := by
          cases t with
          | nil => rfl
          | cons d r =>
            have hd : isPySpace d = false := by
              rw [noAdjSpace, Bool.and_eq_true] at hn
              have := hn.1
              simp [ha] at this
              exact this
            simp [List.dropWhile, hd]
        rw [show collapseWsF (f' + 1) (a :: t)
              = ' ' :: collapseWsF f' (t.dropWhile isPySpace) by simp [collapseWsF, ha]]
        rw [hdt, ih t (by simpa using hl) hbt (noAdjSpace_tail a t hn), haB]
      · rw [show collapseWsF (f' + 1) (a :: t) = a :: collapseWsF f' t by
              simp [collapseWsF, ha]]
        rw [ih t (by simpa using hl) hbt (noAdjSpace_tail a t hn)]

theorem blanksOnly_sub (l l' : List Char) (hsub : ∀ c ∈ l', c ∈ l)
    (h : blanksOnly l = true) : blanksOnly l' = true := by
  simp [blanksOnly, List.all_eq_true] at h ⊢
  exact fun c hc => h c (hsub c hc)

theorem noAdjSpace_dropWhile (p : Char → Bool) (l : List Char)
    (h : noAdjSpace l = true) : noAdjSpace (l.dropWhile p) = true := by
  induction l with
  | nil => simpa using h
  | cons a t ih =>
    by_cases pa : p a = true
    · rw [List.dropWhile_cons_of_pos pa]
      exact ih (noAdjSpace_tail a t h)
    · rw [List.dropWhile_cons_of_neg pa]
      exact h

/-- `dropTrailingSpace` keeps the head (or empties the list). -/
theorem dropTrailingSpace_head : ∀ (t : List Char),
    dropTrailingSpace t = [] ∨ (dropTrailingSpace t).head? = t.head? := by
  intro t
  cases t with
  | nil => exact Or.inl rfl
  | cons a r =>
    rw [dropTrailingSpace]
    rcases h : dropTrailingSpace r with _ | ⟨d, s⟩
    · by_cases ha : isPySpace a = true
      · exact Or.inl (by simp [ha])
      · exact Or.inr (by simp [ha])
    · exact Or.inr rfl

theorem noAdjSpace_dropTrailing : ∀ (l : List Char), noAdjSpace l = true →
    noAdjSpace (dropTrailingSpace l) = true := by
  intro l
  induction l with
  | nil => intro h; exact h
  | cons a t ih =>
    intro h
    rw [dropTrailingSpace]
    rcases hr : dropTrailingSpace t with _ | ⟨d, s⟩
    · by_cases ha : isPySpace a = true <;> simp [ha, noAdjSpace]
    · have htail : noAdjSpace (d :: s) = true := hr ▸ ih (noAdjSpace_tail a t h)
      apply noAdjSpace_cons_of
      · exact htail
      · intro d' hd'
        have hdd : d = d' := by simpa using hd'
        subst hdd
        rcases dropTrailingSpace_head t with he | he
        · rw [he] at hr; cases hr
        · rw [hr] at he
          cases t with
          | nil => simp at he
          | cons b t'' =>
            have hbd : d = b := by simpa using he
            rw [noAdjSpace, Bool.and_eq_true] at h
            have h1 := h.1
            rw [hbd]
            cases hval : (isPySpace a && isPySpace b) with
            | false => rfl
            | true => rw [hval] at h1; simp at h1

/-- The last character surviving `dropTrailingSpace` is not whitespace. -/
theorem dropTrailing_last : ∀ (l : List Char) (x : Char),
    (dropTrailingSpace l).getLast? = some x → isPySpace x = false := by
  intro l
  induction l with
  | nil => intro x hx; simp [dropTrailingSpace] at hx
  | cons a t ih =>
    intro x hx
    rw [dropTrailingSpace] at hx
    rcases hr : dropTrailingSpace t with _ | ⟨d, s⟩
    · rw [hr] at hx
      by_cases ha : isPySpace a = true
      · simp [ha] at hx
      · simp [ha] at hx
        subst hx
        simpa using ha
    · rw [hr] at hx
      rw [List.getLast?_cons_cons] at hx
      exact ih x (hr ▸ hx)

/-- `dropTrailingSpace` is the identity when the last character is not
whitespace. -/
theorem dropTrailing_of_last : ∀ (l : List Char),
    (∀ x, l.getLast? = some x → isPySpace x = false) → dropTrailingSpace l = l := by
  intro l
  induction l with
  | nil => intro _; rfl
  | cons a t ih =>
    intro h
    cases t with
    | nil =>
      have ha := h a (by simp)
      rw [dropTrailingSpace]
      simp [dropTrailingSpace, ha]
    | cons b t' =>
      have ht : dropTrailingSpace (b :: t') = b :: t' := by
        apply ih
        intro x hx
        exact h x (by rw [List.getLast?_cons_cons]; exact hx)
      rw [dropTrailingSpace, ht]

theorem dropWhile_of_head (p : Char → Bool) (l : List Char)
    (h : ∀ d, l.head? = some d → p d = false) : l.dropWhile p = l := by
  cases l with
  | nil => rfl
  | cons a t => simp [List.dropWhile, h a rfl]

/-- Python's `strip` is idempotent. -/
theorem pyStrip_idem (l : List Char) : pyStrip (pyStrip l) = pyStrip l := by
  have hhead : ∀ d, (dropTrailingSpace (l.dropWhile isPySpace)).head? = some d →
      isPySpace d = false := by
    intro d hd
    rcases dropTrailingSpace_head (l.dropWhile isPySpace) with he | he
    · rw [he] at hd; simp at hd
    · rw [he] at hd
      exact dropWhile_head_not isPySpace l d hd
  have h1 : (dropTrailingSpace (l.dropWhile isPySpace)).dropWhile isPySpace
      = dropTrailingSpace (l.dropWhile isPySpace) := dropWhile_of_head _ _ hhead
  have h2 : dropTrailingSpace (dropTrailingSpace (l.dropWhile isPySpace))
      = dropTrailingSpace (l.dropWhile isPySpace) :=
    dropTrailing_of_last _ (fun x hx => dropTrailing_last _ x hx)
  show dropTrailingSpace (List.dropWhile isPySpace (dropTrailingSpace (List.dropWhile isPySpace l)))
      = dropTrailingSpace (List.dropWhile isPySpace l)
  rw [h1, h2]

/-- On text without `<`, `[` or `(`, the four regex deletions do nothing and
`sanitize_speech` is whitespace collapsing plus stripping. -/
theorem sanitize_plain (l : List Char)
    (h : ∀ c ∈ l, c ≠ '<' ∧ c ≠ '[' ∧ c ≠ '(') :
    sanitize l = if l = [] then l else pyStrip (collapseWs l) := by
  by_cases hl : l = []
  · simp [sanitize, hl]
  · have e1 : reSub tagMatch l = l := by
      unfold reSub
      exact reSubGoF_id _ _ (fun c hc t => tagMatch_ne c t (h c hc).1) _
    have e2 : reSub brMatch l = l := by
      unfold reSub
      exact reSubGoF_id _ _ (fun c hc t => brMatch_ne c t (h c hc).2.1) _
    have e3 : reSub stageMatch l = l := by
      unfold reSub
      exact reSubGoF_id _ _ (fun c hc t => stageMatch_ne c t (h c hc).2.2) _
    have e4 : reSub actionMatch l = l := by
      unfold reSub
      exact reSubGoF_id _ _ (fun c hc t => actionMatch_ne c t (h c hc).2.2) _
    simp only [sanitize, hl, if_false, e1, e2, e3, e4]

/-- C6 counterexample: sanitization is not idempotent.  On
`"((sighs)Word)"` the first pass removes the inner `(sighs)` action
parenthetical, leaving `"(Word)"`; the second pass then matches `(Word)` as a
stage direction and removes it too. -/
theorem sanitize_not_idempotent :
    sanitize (sanitize "((sighs)Word)".data) ≠ sanitize "((sighs)Word)".data := by
  decide

/-- C6 (amended): `sanitize_speech` is idempotent on inputs containing none of
the characters `<`, `[`, `(` (on such text it only collapses and strips
whitespace, which is a projection); a second application can differ only
through the tag, bracket and parenthetical deletions. -/
theorem sanitize_idempotent_on_plain (l : List Char)
    (h : ∀ c ∈ l, c ≠ '<' ∧ c ≠ '[' ∧ c ≠ '(') :
    sanitize (sanitize l) = sanitize l := by
  rw [sanitize_plain l h]
  by_cases hl : l = []
  · simp [hl, sanitize]
  · rw [if_neg hl]
    have hchar : ∀ c ∈ pyStrip (collapseWs l), c ≠ '<' ∧ c ≠ '[' ∧ c ≠ '(' := by
      intro c hc
      rcases mem_collapseWsF l.length l c (mem_pyStrip _ c hc) with h1 | h1
      · exact h c h1
      · subst h1
        exact ⟨by decide, by decide, by decide⟩
    rw [sanitize_plain _ hchar]
    by_cases hyl : pyStrip (collapseWs l) = []
    · simp [hyl]
    · rw [if_neg hyl]
      have hb : blanksOnly (collapseWs l) = true :=
        blanksOnly_collapseWsF l.length l le_rfl
      have hn : noAdjSpace (collapseWs l) = true :=
        noAdjSpace_collapseWsF l.length l le_rfl
      have hby : blanksOnly (pyStrip (collapseWs l)) = true :=
        blanksOnly_sub _ _ (fun c hc => mem_pyStrip _ c hc) hb
      have hny : noAdjSpace (pyStrip (collapseWs l)) = true :=
        noAdjSpace_dropTrailing _ (noAdjSpace_dropWhile _ _ hn)
      have hcy : collapseWs (pyStrip (collapseWs l)) = pyStrip (collapseWs l) :=
        collapseWsF_id _ _ le_rfl hby hny
      rw [show collapseWs (pyStrip (collapseWs l)) = pyStrip (collapseWs l) from hcy]
      exact pyStrip_idem (collapseWs l)

/-- C6 witness: idempotence applied to a concrete plain text. -/
theorem sanitize_idempotent_on_plain_witness :
    sanitize (sanitize "hello   world".data) = sanitize "hello   world".data :=
  sanitize_idempotent_on_plain "hello   world".data (by decide)

end ChatArena
